import Mathlib

/-!
Verification of the peer-routing subsystem of a Kademlia DHT implementation
(`src/peer-routing/index.js` and the shared `utils.js` module), against its
natural-language specification.

Byte buffers are modelled as `List Nat` (one `Nat` per byte; where a property
needs genuine bytes, the hypothesis `b < 256` is stated explicitly).
Stateful JavaScript code is modelled by explicit state passing: the peer
store is an association list, network I/O and the query engine (which live
outside the verified sources) are oracle parameters, and fallible code
returns `Except`.
-/

namespace KadDHT

/-- Byte strings: one natural number per byte. -/
abbrev Bytes := List Nat

/-! ## utils.js -/

/-- The reserved key header `Buffer.from('/pk/')`, as its byte values. -/
def pkHeader : Bytes := "/pk/".toList.map Char.toNat

/-- utils.keyForPublicKey: `Buffer.concat([Buffer.from('/pk/'), peer.id])`. -/
def keyForPublicKey (peerId : Bytes) : Bytes := pkHeader ++ peerId

/-- utils.isPublicKeyKey: `key.slice(0, 4).toString() === '/pk/'`. -/
def isPublicKeyKey (key : Bytes) : Bool := key.take 4 == pkHeader

/-- utils.fromPublicKeyKey: `new PeerId(key.slice(4))`; the resulting PeerId
has exactly the bytes `key.slice(4)` as its id. -/
def fromPublicKeyKey (key : Bytes) : Bytes := key.drop 4

/-- utils.pathSize: `Math.ceil(resultsWanted / numPaths)`.  On natural-number
inputs JavaScript float division followed by `Math.ceil` is ceiling
division, written here as `(a + b - 1) / b` over `Nat`. -/
def pathSize (resultsWanted numPaths : Nat) : Nat :=
  (resultsWanted + numPaths - 1) / numPaths

/-- The `xor-distance` library: bytewise XOR of two equal-length buffers
(every call in this repository passes two SHA-256 digests). -/
def xorDistance (a b : Bytes) : Bytes := List.zipWith Nat.xor a b

/-- Bytewise lexicographic comparison of two equal-length byte strings,
the comparison loop of `xor-distance`'s `compare`. -/
def lexBytes : Bytes → Bytes → Ordering
  | x :: xs, y :: ys =>
    if x = y then lexBytes xs ys else if x < y then Ordering.lt else Ordering.gt
  | _, _ => Ordering.eq

/-- Zero-extend a byte string at the front to length `n`. -/
def padFront (n : Nat) (a : Bytes) : Bytes := List.replicate (n - a.length) 0 ++ a

/-- The `xor-distance` comparator on distances.  The library compares two
equal-length buffers bytewise; it is totalised here to unequal lengths by
zero-extending the shorter buffer at the front, which is the identity on the
equal-length inputs the program produces. -/
def compareBytes (a b : Bytes) : Ordering :=
  lexBytes (padFront (max a.length b.length) a) (padFront (max a.length b.length) b)

/-- Intermediate record of utils.sortClosestPeers: a peer together with the
XOR distance of its DHT id to the target. -/
structure PeerDistance where
  peer : Bytes
  distance : Bytes
deriving DecidableEq

/-- utils.xorCompare: compare two such records by their `distance` field. -/
def xorCompare (a b : PeerDistance) : Ordering := compareBytes a.distance b.distance

/-- utils.sortClosestPeers: map each peer to the XOR distance of
`convertPeerId(peer)` (the SHA-256 digest of its id bytes, here the oracle
`sha`) to `target`, sort by `xorCompare` (a stable comparator sort, as
JavaScript `Array.prototype.sort`), and return the peers. -/
def sortClosestPeers (sha : Bytes → Bytes) (peers : List Bytes) (target : Bytes) : List Bytes :=
  let distances := peers.map (fun p => PeerDistance.mk p (xorDistance (sha p) target))
  (distances.mergeSort (fun a b => xorCompare a b != Ordering.gt)).map (fun d => d.peer)

/-! ## Base32 datastore keys

The `base32.js` encoder and decoder objects used by utils.encodeBase32 and
utils.decodeBase32 are an external library that is not part of the verified
sources.  Modelled from the spec: `bufferToKey(buf)` yields datastore key
`/<base32(buf)>` (lowercase RFC4648, no padding). -/

/-- The lowercase RFC 4648 base32 alphabet. -/
def rfc4648Chars : List Char := "abcdefghijklmnopqrstuvwxyz234567".toList

/-- Big-endian bits of one byte. -/
def byteToBits (b : Nat) : List Bool :=
  [b.testBit 7, b.testBit 6, b.testBit 5, b.testBit 4,
   b.testBit 3, b.testBit 2, b.testBit 1, b.testBit 0]

/-- Big-endian bit stream of a byte string. -/
def bytesToBits (bs : Bytes) : List Bool := (bs.map byteToBits).flatten

/-- Value of a big-endian bit string. -/
def bitsToNat (l : List Bool) : Nat :=
  l.foldl (fun acc b => 2 * acc + (if b then 1 else 0)) 0

/-- Split a bit stream into 5-bit groups, zero-padding the final group on the
right (RFC 4648 base32 without padding characters). -/
def groupBits5 (l : List Bool) : List (List Bool) :=
  if l = [] then []
  else (l.take 5 ++ List.replicate (5 - l.length) false) :: groupBits5 (l.drop 5)
termination_by l.length
decreasing_by
  simp only [List.length_drop]
  rename_i h
  have : 0 < l.length := List.length_pos.mpr h
  omega

/-- Modelled from the spec: utils.encodeBase32 (the `base32.js` encoder, not
in the verified sources) encodes a buffer in lowercase RFC 4648 base32
without padding. -/
def encodeBase32 (bs : Bytes) : List Char :=
  (groupBits5 (bytesToBits bs)).map (fun g => rfc4648Chars.getD (bitsToNat g) 'a')

/-- Big-endian bits of one 5-bit group value. -/
def natToBits5 (n : Nat) : List Bool :=
  [n.testBit 4, n.testBit 3, n.testBit 2, n.testBit 1, n.testBit 0]

/-- Collect complete bytes from a bit stream, discarding a trailing group of
fewer than 8 bits. -/
def groupBits8 (l : List Bool) : Bytes :=
  if l.length < 8 then []
  else bitsToNat (l.take 8) :: groupBits8 (l.drop 8)
termination_by l.length
decreasing_by
  simp only [List.length_drop]
  omega

/-- Modelled from the spec: utils.decodeBase32 (the `base32.js` decoder, not
in the verified sources) decodes a lowercase RFC 4648 base32 string back to
a buffer. -/
def decodeBase32 (s : List Char) : Bytes :=
  groupBits8 (s.flatMap (fun c => natToBits5 (rfc4648Chars.indexOf c)))

/-- utils.bufferToKey: `new Key('/' + exports.encodeBase32(buf), false)`, as
the underlying key string. -/
def bufferToKey (buf : Bytes) : List Char := '/' :: encodeBase32 buf

/-! ## Message protocol (src/message, as used by peer-routing) -/

/-- Message.TYPES. -/
inductive MessageType
  | putValue | getValue | addProvider | getProviders | findNode | ping
deriving DecidableEq

/-- Contact information carried in a reply: `{ id, multiaddrs }`.  Multiaddrs
are opaque tokens here. -/
structure PeerInfo where
  id : Bytes
  multiaddrs : List Nat
deriving DecidableEq

/-- Wire record: its `value` field may be absent. -/
structure WireRecord where
  value : Option Bytes
deriving DecidableEq

/-- DHT message, with the fields peer-routing reads and writes. -/
structure Message where
  type : MessageType
  key : Bytes
  clusterLevel : Nat
  record : Option WireRecord
  closerPeers : List PeerInfo
deriving DecidableEq

/-- Result object produced by a per-peer query function; absent JavaScript
fields are `none`. -/
structure QueryStep where
  peer : Option PeerInfo
  queryComplete : Option Bool
  closerPeers : Option (List PeerInfo)
  pathComplete : Option Bool
deriving DecidableEq

/-! ## Peer store and address book

The peer store is an external collaborator of this repository.  Modelled
from the spec: an `AddressBook` port with `add(peerID, addresses)` and
`get(peerID) → contact?`, an opaque mapping from peer id to known addresses
and, optionally, a public key. -/

/-- Address entry of a peer-store record; `address.multiaddr` is the opaque
multiaddr token. -/
structure Address where
  multiaddr : Nat
deriving DecidableEq

/-- PeerId object held in a peer-store record: id bytes plus an optional
cached public key. -/
structure StoredId where
  id : Bytes
  pubKey : Option Bytes
deriving DecidableEq

/-- Peer-store record (`peerData`): a PeerId object and known addresses. -/
structure PeerData where
  id : StoredId
  addresses : List Address
deriving DecidableEq

/-- Peer store: association list from peer-id bytes to peer data. -/
abbrev PeerStore := List (Bytes × PeerData)

/-- peerStore.get: look a peer up by its id bytes. -/
def psGet (store : PeerStore) (idB : Bytes) : Option PeerData :=
  (store.find? (fun e => e.1 == idB)).map (fun e => e.2)

/-- peerStore.addressBook.add: record addresses for a peer, creating its
entry when absent. -/
def addressBookAdd (store : PeerStore) (idB : Bytes) (addrs : List Nat) : PeerStore :=
  match psGet store idB with
  | some _ =>
    store.map (fun e =>
      if e.1 == idB then (e.1, PeerData.mk e.2.id (e.2.addresses ++ addrs.map Address.mk)) else e)
  | none => store ++ [(idB, PeerData.mk (StoredId.mk idB none) (addrs.map Address.mk))]

/-! ## DHT context

The routing table, the SHA-256 digest and the bucket size are inputs of the
peer-routing module; they enter the model as oracle fields. -/

/-- Ambient DHT state read by peer-routing: `convertPeerId`/`convertBuffer`
digest oracle `sha`, `dht.kBucketSize`, `dht.routingTable.find`,
`dht.routingTable.closestPeers`, and the peer store. -/
structure DhtCtx where
  sha : Bytes → Bytes
  kBucketSize : Nat
  rtFind : Bytes → Option Bytes
  closestPeers : Bytes → Nat → List Bytes
  store : PeerStore

/-! ## findPeer (src/peer-routing/index.js) -/

/-- Value returned by findPeer: `{ id, multiaddrs }`. -/
structure FoundPeer where
  id : StoredId
  multiaddrs : List Nat
deriving DecidableEq

/-- Build the `{ id, multiaddrs }` return value from a peer-store record. -/
def peerDataToFound (pd : PeerData) : FoundPeer :=
  FoundPeer.mk pd.id (pd.addresses.map (fun a => a.multiaddr))

/-- findPeerLocal: look the target up in the routing table, then fetch its
peer-store record; `undefined` when either step fails. -/
def findPeerLocal (dht : DhtCtx) (idB : Bytes) : Option FoundPeer :=
  match dht.rtFind idB with
  | none => none
  | some p => (psGet dht.store p).map peerDataToFound

/-- Failure of `pTimeout(query.run(peers), options.timeout)`: the overall
timeout, or a rejection of the query run itself. -/
inductive QueryFailure
  | timeout
  | queryError (code : Nat)
deriving DecidableEq

/-- Per-path entry of the query result consumed by findPeer:
`result.paths[i]` with its `success` flag and winning peer. -/
structure PathResult where
  success : Bool
  peer : PeerInfo
deriving DecidableEq

/-- Result of a completed query run, as consumed by findPeer. -/
structure FindPeerQueryResult where
  paths : List PathResult
deriving DecidableEq

instance {ε α : Type} [DecidableEq ε] [DecidableEq α] : DecidableEq (Except ε α) := fun x y =>
  match x, y with
  | Except.ok a, Except.ok b =>
    if h : a = b then isTrue (by rw [h]) else isFalse (by intro hc; cases hc; exact h rfl)
  | Except.ok _, Except.error _ => isFalse (by intro hc; cases hc)
  | Except.error _, Except.ok _ => isFalse (by intro hc; cases hc)
  | Except.error e, Except.error f =>
    if h : e = f then isTrue (by rw [h]) else isFalse (by intro hc; cases hc; exact h rfl)

/-- Errors findPeer can throw. `typeError` models the JavaScript crash of
reading `.addresses` from an `undefined` peer-store record. -/
inductive FindPeerErr
  | lookupFailed
  | notFound
  | queryFailed (e : QueryFailure)
  | typeError
deriving DecidableEq

/-- Outcome of a findPeer call: the returned value or error, whether the
query engine was run, and the final peer store. -/
structure FindPeerTrace where
  result : Except FindPeerErr FoundPeer
  queryRan : Bool
  store : PeerStore
deriving DecidableEq

/-- Message sent by `_findPeerSingle`:
`new Message(Message.TYPES.FIND_NODE, target.id, 0)`. -/
def findPeerRequest (targetId : Bytes) : Message :=
  Message.mk MessageType.findNode targetId 0 none []

/-- Per-peer query function of findPeer (the closure passed to `new Query`):
scan the reply for an exact id match; on a match report
`{ peer: match, queryComplete: true }`, otherwise `{ closerPeers }`. -/
def findPeerQueryStep (idB : Bytes) (msg : Message) : QueryStep :=
  match msg.closerPeers.find? (fun p => p.id == idB) with
  | some m => QueryStep.mk (some m) (some true) none none
  | none => QueryStep.mk none none (some msg.closerPeers) none

/-- Network phase of findPeer (lines 128-199): seed from
`closestPeers(SHA256(id), kBucketSize)`, fail with lookup-failed on no
seeds, short-circuit through the peer store when a seed is the target, else
run the query (`runQuery` is the oracle for
`pTimeout(query.run(peers), timeout)`), record successful paths in the
address book, and answer from the peer store. -/
def findPeerNetwork (dht : DhtCtx)
    (runQuery : List Bytes → Except QueryFailure FindPeerQueryResult)
    (idB : Bytes) : FindPeerTrace :=
  let key := dht.sha idB
  let peers := dht.closestPeers key dht.kBucketSize
  if peers.isEmpty then FindPeerTrace.mk (Except.error FindPeerErr.lookupFailed) false dht.store
  else
    let short : Option FoundPeer :=
      match peers.find? (fun p => p == idB) with
      | some _ => (psGet dht.store idB).map peerDataToFound
      | none => none
    match short with
    | some pi => FindPeerTrace.mk (Except.ok pi) false dht.store
    | none =>
      match runQuery peers with
      | Except.error e => FindPeerTrace.mk (Except.error (FindPeerErr.queryFailed e)) true dht.store
      | Except.ok res =>
        let store1 := res.paths.foldl
          (fun s pr => if pr.success then addressBookAdd s pr.peer.id pr.peer.multiaddrs else s)
          dht.store
        let success := res.paths.any (fun pr => pr.success)
        if success then
          match psGet store1 idB with
          | some pd => FindPeerTrace.mk (Except.ok (peerDataToFound pd)) true store1
          | none => FindPeerTrace.mk (Except.error FindPeerErr.typeError) true store1
        else FindPeerTrace.mk (Except.error FindPeerErr.notFound) true store1

/-- findPeer: try the local short-circuit, otherwise take the network
path. -/
def findPeer (dht : DhtCtx)
    (runQuery : List Bytes → Except QueryFailure FindPeerQueryResult)
    (idB : Bytes) : FindPeerTrace :=
  match findPeerLocal dht idB with
  | some pi => FindPeerTrace.mk (Except.ok pi) false dht.store
  | none => findPeerNetwork dht runQuery idB

/-! ## getClosestPeers (src/peer-routing/index.js) -/

/-- Result of the getClosestPeers query run; `finalSet` may be absent. -/
structure ClosestQueryResult where
  finalSet : Option (List Bytes)
deriving DecidableEq

/-- Per-peer query function of getClosestPeers: always
`{ closerPeers, pathComplete: options.shallow ? true : undefined }`. -/
def getClosestPeersStep (shallow : Bool) (closer : List PeerInfo) : QueryStep :=
  QueryStep.mk none none (some closer) (if shallow then some true else none)

/-- getClosestPeers: seed the query from
`routingTable.closestPeers(convertBuffer(key), kBucketSize)`; when the run
yields a `finalSet`, sort it by XOR distance to the digested key and yield
at most `kBucketSize` peers; otherwise yield nothing. -/
def getClosestPeers (dht : DhtCtx)
    (runQuery : List Bytes → Option ClosestQueryResult)
    (key : Bytes) : List Bytes :=
  let id := dht.sha key
  let tablePeers := dht.closestPeers id dht.kBucketSize
  match runQuery tablePeers with
  | none => []
  | some res =>
    match res.finalSet with
    | none => []
    | some fs => (sortClosestPeers dht.sha fs id).take dht.kBucketSize

/-! ## getPublicKey (src/peer-routing/index.js) -/

/-- Errors of the getPublicKey paths.  `typeError` models the JavaScript
crash of assigning `peerData.id` when `peerData` is `undefined`. -/
inductive PkErr
  | network
  | invalidRecord
  | pkMismatch
  | notFound
  | typeError
deriving DecidableEq

/-- getValueSingle: `new Message(Message.TYPES.GET_VALUE, key, 0)` sent via
`dht.network.sendRequest`. -/
def getValueRequest (key : Bytes) : Message :=
  Message.mk MessageType.getValue key 0 none []

/-- getPublicKeyFromNode: ask the peer for `/pk/<id>` directly
(`sendRequest` is the network oracle), reject an absent record value with
the invalid-record error, derive a PeerId from the returned key bytes
(`PeerId.createFromPubKey`, the digest oracle `deriveId`) and reject a
mismatch with ERR_PUBLIC_KEY_DOES_NOT_MATCH_ID. -/
def getPublicKeyFromNode (deriveId : Bytes → Bytes)
    (sendRequest : Bytes → Message → Except Unit Message)
    (peerId : Bytes) : Except PkErr Bytes :=
  let pkKey := keyForPublicKey peerId
  match sendRequest peerId (getValueRequest pkKey) with
  | Except.error _ => Except.error PkErr.network
  | Except.ok msg =>
    match msg.record with
    | none => Except.error PkErr.invalidRecord
    | some rec =>
      match rec.value with
      | none => Except.error PkErr.invalidRecord
      | some v =>
        if deriveId v == peerId then Except.ok v else Except.error PkErr.pkMismatch

/-- Modelled from the spec: `dht.get` (value ops) for a `/pk/<id>` key.
The get path is not part of the verified sources; per the spec a record is
only returned after its validator accepts it, and the public-key validator
accepts exactly the records whose key hash matches the id
(`hash(pubkey) = id`). `records` is the oracle for what the network get
would deliver before validation. -/
def dhtGetPk (deriveId : Bytes → Bytes) (records : Bytes → Option Bytes)
    (key : Bytes) : Except PkErr Bytes :=
  match records key with
  | none => Except.error PkErr.notFound
  | some v =>
    if deriveId v == fromPublicKeyKey key then Except.ok v
    else Except.error PkErr.invalidRecord

/-- Fetch phase of getPublicKey: try the node directly; on any failure fall
back to the DHT get (`crypto.keys.unmarshalPublicKey` is the identity on
the marshalled key bytes in this model). -/
def getPublicKeyFetch (deriveId : Bytes → Bytes)
    (sendRequest : Bytes → Message → Except Unit Message)
    (records : Bytes → Option Bytes)
    (peerId : Bytes) : Except PkErr Bytes :=
  match getPublicKeyFromNode deriveId sendRequest peerId with
  | Except.ok pk => Except.ok pk
  | Except.error _ => dhtGetPk deriveId records (keyForPublicKey peerId)

/-- Outcome of getPublicKey: the returned key or error, and the final peer
store. -/
structure GetPkTrace where
  result : Except PkErr Bytes
  store : PeerStore
deriving DecidableEq

/-- getPublicKey: return a cached key from the peer store when present;
otherwise fetch from the node or the DHT, then assign
`peerData.id = new PeerId(peer.id, null, pk)` and re-add the record's
addresses — a step that crashes when the peer-store record is
`undefined`. -/
def getPublicKey (deriveId : Bytes → Bytes)
    (sendRequest : Bytes → Message → Except Unit Message)
    (records : Bytes → Option Bytes)
    (store : PeerStore) (peerId : Bytes) : GetPkTrace :=
  match psGet store peerId with
  | some pd =>
    match pd.id.pubKey with
    | some pk => GetPkTrace.mk (Except.ok pk) store
    | none =>
      match getPublicKeyFetch deriveId sendRequest records peerId with
      | Except.error e => GetPkTrace.mk (Except.error e) store
      | Except.ok pk =>
        let newId := StoredId.mk peerId (some pk)
        let store1 := store.map (fun e =>
          if e.1 == peerId then (e.1, PeerData.mk newId e.2.addresses) else e)
        GetPkTrace.mk (Except.ok pk) store1
  | none =>
    match getPublicKeyFetch deriveId sendRequest records peerId with
    | Except.error e => GetPkTrace.mk (Except.error e) store
    | Except.ok _ => GetPkTrace.mk (Except.error PkErr.typeError) store

/-! ## Concrete instances used by witnesses and counterexamples -/

/-- Reply whose closerPeers contain the target peer `[1]`. -/
def wMsgHit : Message :=
  Message.mk MessageType.findNode [] 0 none [PeerInfo.mk [2] [], PeerInfo.mk [1] [4]]

/-- DHT context with one routing-table seed and an empty peer store. -/
def wDhtSeeded : DhtCtx :=
  DhtCtx.mk (fun b => b) 20 (fun _ => none) (fun _ _ => [[2]]) []

/-- Query run failing with the overall timeout. -/
def wRunTimeout : List Bytes → Except QueryFailure FindPeerQueryResult :=
  fun _ => Except.error QueryFailure.timeout

/-- Query result with a single unsuccessful path. -/
def wResNoSuccess : FindPeerQueryResult :=
  FindPeerQueryResult.mk [PathResult.mk false (PeerInfo.mk [3] [])]

/-- Query run completing with a single unsuccessful path. -/
def wRunNoSuccess : List Bytes → Except QueryFailure FindPeerQueryResult :=
  fun _ => Except.ok wResNoSuccess

/-- DHT context whose routing table is empty. -/
def wDhtEmpty : DhtCtx :=
  DhtCtx.mk (fun b => b) 20 (fun _ => none) (fun _ _ => []) []

/-- Peer-store record for peer `[1]`: no cached public key, one address. -/
def wPeerData : PeerData := PeerData.mk (StoredId.mk [1] none) [Address.mk 4]

/-- DHT context that knows peer `[1]` both in the routing table and the peer
store. -/
def wDhtLocal : DhtCtx :=
  DhtCtx.mk (fun b => b) 20 (fun b => if b == [1] then some [1] else none)
    (fun _ _ => [[2]]) [([1], wPeerData)]

/-- DHT context with bucket size 2 for the getClosestPeers witness. -/
def wDhtK2 : DhtCtx :=
  DhtCtx.mk (fun b => b) 2 (fun _ => none) (fun _ _ => [[9], [8]]) []

/-- Query result delivering the final set `[[3], [1], [2]]`. -/
def wResClosest : ClosestQueryResult := ClosestQueryResult.mk (some [[3], [1], [2]])

/-- Query run delivering `wResClosest`. -/
def wRunClosest : List Bytes → Option ClosestQueryResult := fun _ => some wResClosest

/-- Digest oracle mapping every buffer to `[9]`. -/
def wDerive9 : Bytes → Bytes := fun _ => [9]

/-- Digest oracle mapping every buffer to `[1]`. -/
def wDerive1 : Bytes → Bytes := fun _ => [1]

/-- Network oracle answering every request with a record of value `[5]`. -/
def wSendRec5 : Bytes → Message → Except Unit Message :=
  fun _ _ => Except.ok (Message.mk MessageType.getValue [] 0 (some (WireRecord.mk (some [5]))) [])

/-- DHT-get oracle with no stored records. -/
def wNoRecords : Bytes → Option Bytes := fun _ => none

/-- Peer store holding peer `[1]` without a cached public key. -/
def wStorePk : PeerStore := [([1], PeerData.mk (StoredId.mk [1] none) [])]

/-! # Theorems -/

/-- Helper: the `/pk/` header, byte by byte. -/
theorem pkHeader_eq : pkHeader = [47, 112, 107, 47] := rfl

/-- Helper: stripping the `/pk/` header of a public-key key recovers the
id bytes. -/
theorem fromPublicKeyKey_keyForPublicKey (peerId : Bytes) :
    fromPublicKeyKey (keyForPublicKey peerId) = peerId := by
  have h4 : pkHeader.length = 4 := rfl
  simp only [fromPublicKeyKey, keyForPublicKey, ← h4, List.drop_left]

/-- C8: round-trip of public-key keys: `keyForPublicKey(peer)` is exactly
the bytes of `/pk/` followed by the peer id bytes, `isPublicKeyKey`
accepts it, and `fromPublicKeyKey` recovers the peer id bytes. -/
theorem keyForPublicKey_roundtrip (peerId : Bytes) :
    keyForPublicKey peerId = "/pk/".toList.map Char.toNat ++ peerId ∧
    isPublicKeyKey (keyForPublicKey peerId) = true ∧
    fromPublicKeyKey (keyForPublicKey peerId) = peerId := by
  refine ⟨rfl, ?_, fromPublicKeyKey_keyForPublicKey peerId⟩
  have h4 : pkHeader.length = 4 := rfl
  simp only [isPublicKeyKey, keyForPublicKey, ← h4, List.take_left, beq_self_eq_true]

/-- C10: `pathSize(resultsWanted, numPaths)` is the ceiling of the exact
quotient, is at least 1, and multiplied by the number of paths covers the
wanted results. -/
theorem pathSize_ceil (r n : Nat) (hr : 1 ≤ r) (hn : 1 ≤ n) :
    ((pathSize r n : Int) = ⌈(r : ℚ) / (n : ℚ)⌉) ∧
    1 ≤ pathSize r n ∧ r ≤ pathSize r n * n := by
  have hn0 : 0 < n := hn
  have hceil : pathSize r n = r ⌈/⌉ n := (Nat.ceilDiv_eq_add_pred_div r n).symm
  have hle : r ≤ n * pathSize r n := by
    rw [hceil]
    exact (ceilDiv_le_iff_le_mul hn0).mp (le_refl (r ⌈/⌉ n))
  have hpos : 1 ≤ pathSize r n := by
    rcases Nat.eq_zero_or_pos (pathSize r n) with h | h
    · rw [h, Nat.mul_zero] at hle; omega
    · exact h
  have hstrict : n * (pathSize r n - 1) < r := by
    by_contra hcon
    push_neg at hcon
    have hupper : pathSize r n ≤ pathSize r n - 1 := by
      rw [hceil]
      rw [hceil] at hcon
      exact (ceilDiv_le_iff_le_mul hn0).2 hcon
    omega
  refine ⟨?_, hpos, by rw [Nat.mul_comm]; exact hle⟩
  have hQn : (0 : ℚ) < (n : ℚ) := by exact_mod_cast hn0
  have hmain : ⌈(r : ℚ) / (n : ℚ)⌉ = ((pathSize r n : Nat) : Int) := by
    rw [Int.ceil_eq_iff]
    constructor
    · rcases Nat.exists_eq_add_of_le hpos with ⟨m, hm⟩
      have hsm : n * m < r := by
        have : pathSize r n - 1 = m := by omega
        rw [this] at hstrict
        exact hstrict
      have hcast : ((n : ℚ)) * (m : ℚ) < (r : ℚ) := by exact_mod_cast hsm
      rw [lt_div_iff₀ hQn]
      push_cast [hm]
      nlinarith
    · rw [div_le_iff₀ hQn]
      have hcast : (r : ℚ) ≤ (n : ℚ) * ((pathSize r n : Nat) : ℚ) := by exact_mod_cast hle
      push_cast
      linarith
  exact hmain.symm

/-- Witness for C10 at `resultsWanted = 10`, `numPaths = 3`. -/
theorem pathSize_ceil_witness :
    ((pathSize 10 3 : Int) = ⌈((10 : Nat) : ℚ) / ((3 : Nat) : ℚ)⌉) ∧
    1 ≤ pathSize 10 3 ∧ 10 ≤ pathSize 10 3 * 3 :=
  pathSize_ceil 10 3 (by omega) (by omega)

/-- C2: the per-peer query function of findPeer sends a FIND_NODE message
for the target id; when the reply's closerPeers contain a peer with exactly
the target id it reports that peer with `queryComplete: true` and no
closerPeers, otherwise it reports exactly the reply's closerPeers and no
queryComplete flag. -/
theorem findPeer_query_step (idB : Bytes) (msg : Message) :
    (findPeerRequest idB).type = MessageType.findNode ∧
    (findPeerRequest idB).key = idB ∧
    ((∃ p ∈ msg.closerPeers, p.id = idB) →
      ∃ m, (findPeerQueryStep idB msg).peer = some m ∧ m.id = idB ∧
        m ∈ msg.closerPeers ∧
        (findPeerQueryStep idB msg).queryComplete = some true ∧
        (findPeerQueryStep idB msg).closerPeers = none) ∧
    ((∀ p ∈ msg.closerPeers, p.id ≠ idB) →
      (findPeerQueryStep idB msg).closerPeers = some msg.closerPeers ∧
      (findPeerQueryStep idB msg).queryComplete = none) := by
  refine ⟨rfl, rfl, ?_, ?_⟩
  · rintro ⟨p, hp, hpid⟩
    cases hf : msg.closerPeers.find? (fun q => q.id == idB) with
    | none =>
      exfalso
      have := List.find?_eq_none.mp hf p hp
      simp [hpid] at this
    | some m =>
      have hmid : m.id = idB := by simpa using List.find?_some hf
      have hmem : m ∈ msg.closerPeers := List.mem_of_find?_eq_some hf
      exact ⟨m, by simp [findPeerQueryStep, hf], hmid, hmem,
        by simp [findPeerQueryStep, hf], by simp [findPeerQueryStep, hf]⟩
  · intro hall
    cases hf : msg.closerPeers.find? (fun q => q.id == idB) with
    | some m =>
      exfalso
      exact hall m (List.mem_of_find?_eq_some hf) (by simpa using List.find?_some hf)
    | none =>
      exact ⟨by simp [findPeerQueryStep, hf], by simp [findPeerQueryStep, hf]⟩

/-- Witness for C2 on a reply containing the target. -/
theorem findPeer_query_step_witness :
    (∃ p ∈ wMsgHit.closerPeers, p.id = [1]) ∧
    (∃ m, (findPeerQueryStep [1] wMsgHit).peer = some m ∧ m.id = [1] ∧
      m ∈ wMsgHit.closerPeers ∧
      (findPeerQueryStep [1] wMsgHit).queryComplete = some true ∧
      (findPeerQueryStep [1] wMsgHit).closerPeers = none) :=
  ⟨⟨PeerInfo.mk [1] [4], by decide, rfl⟩,
    (findPeer_query_step [1] wMsgHit).2.2.1 ⟨PeerInfo.mk [1] [4], by decide, rfl⟩⟩

/-- C5: with the local lookup failing and `closestPeers` returning no
seeds, findPeer fails with ERR_LOOKUP_FAILED, runs no query, and leaves the
peer store unchanged. -/
theorem findPeer_empty_seeds_lookup_failed (dht : DhtCtx)
    (runQuery : List Bytes → Except QueryFailure FindPeerQueryResult) (idB : Bytes)
    (hlocal : findPeerLocal dht idB = none)
    (hempty : dht.closestPeers (dht.sha idB) dht.kBucketSize = []) :
    findPeer dht runQuery idB =
      FindPeerTrace.mk (Except.error FindPeerErr.lookupFailed) false dht.store := by
  simp [findPeer, hlocal, findPeerNetwork, hempty]

/-- Witness for C5 on the empty routing table. -/
theorem findPeer_empty_seeds_lookup_failed_witness :
    findPeer wDhtEmpty wRunTimeout [1] =
      FindPeerTrace.mk (Except.error FindPeerErr.lookupFailed) false wDhtEmpty.store :=
  findPeer_empty_seeds_lookup_failed wDhtEmpty wRunTimeout [1] (by decide) (by decide)

/-- C6: when the routing-table lookup and the peer-store lookup both
succeed, findPeer answers immediately from the store without running the
query; when either fails, the local short-circuit is skipped and execution
continues with the network phase. -/
theorem findPeer_local_short_circuit (dht : DhtCtx)
    (runQuery : List Bytes → Except QueryFailure FindPeerQueryResult) (idB : Bytes) :
    (∀ p pd, dht.rtFind idB = some p → psGet dht.store p = some pd →
      findPeer dht runQuery idB =
        FindPeerTrace.mk (Except.ok (peerDataToFound pd)) false dht.store) ∧
    ((dht.rtFind idB = none ∨ ∃ p, dht.rtFind idB = some p ∧ psGet dht.store p = none) →
      findPeer dht runQuery idB = findPeerNetwork dht runQuery idB) := by
  constructor
  · intro p pd hf hg
    simp [findPeer, findPeerLocal, hf, hg]
  · rintro (h | ⟨p, hf, hg⟩) <;> simp [findPeer, findPeerLocal, *]

/-- Witness for C6 on a peer known locally. -/
theorem findPeer_local_short_circuit_witness :
    findPeer wDhtLocal wRunTimeout [1] =
      FindPeerTrace.mk (Except.ok (peerDataToFound wPeerData)) false wDhtLocal.store :=
  (findPeer_local_short_circuit wDhtLocal wRunTimeout [1]).1 [1] wPeerData rfl rfl

/-- Counterexample for C3: when the overall timeout fires, findPeer throws
the timeout error itself, not the not-found error the claim states. -/
theorem findPeer_timeout_not_notfound :
    (findPeer wDhtSeeded wRunTimeout [1]).result =
      Except.error (FindPeerErr.queryFailed QueryFailure.timeout) ∧
    (findPeer wDhtSeeded wRunTimeout [1]).result ≠ Except.error FindPeerErr.notFound := by
  decide

/-- C3 (amended): once findPeer has reached the network query, a failing
query run (the overall timeout included) is rethrown as that failure; a
completed run with no successful path fails with ERR_NOT_FOUND; and a peer
record is returned only when at least one path succeeded. -/
theorem findPeer_network_outcome (dht : DhtCtx)
    (runQuery : List Bytes → Except QueryFailure FindPeerQueryResult) (idB : Bytes)
    (hq : (findPeer dht runQuery idB).queryRan = true) :
    (∀ e, runQuery (dht.closestPeers (dht.sha idB) dht.kBucketSize) = Except.error e →
      (findPeer dht runQuery idB).result = Except.error (FindPeerErr.queryFailed e)) ∧
    (∀ res, runQuery (dht.closestPeers (dht.sha idB) dht.kBucketSize) = Except.ok res →
      ((res.paths.any (fun pr => pr.success) = false →
        (findPeer dht runQuery idB).result = Except.error FindPeerErr.notFound) ∧
      (∀ fp, (findPeer dht runQuery idB).result = Except.ok fp →
        res.paths.any (fun pr => pr.success) = true))) := by
  cases hlocal : findPeerLocal dht idB with
  | some pi => simp [findPeer, hlocal] at hq
  | none =>
    simp only [findPeer, hlocal] at hq ⊢
    by_cases hemp : (dht.closestPeers (dht.sha idB) dht.kBucketSize).isEmpty
    · simp [findPeerNetwork, hemp] at hq
    · cases hshort : (dht.closestPeers (dht.sha idB) dht.kBucketSize).find?
        (fun p => p == idB) with
      | some q =>
        cases hps : psGet dht.store idB with
        | some pd => simp [findPeerNetwork, hemp, hshort, hps] at hq
        | none =>
          cases hrun : runQuery (dht.closestPeers (dht.sha idB) dht.kBucketSize) with
          | error e0 =>
            refine ⟨?_, ?_⟩
            · intro e he
              cases he
              simp [findPeerNetwork, hemp, hshort, hps, hrun]
            · intro res hres
              cases hres
          | ok res0 =>
            refine ⟨?_, ?_⟩
            · intro e he
              cases he
            · intro res hres
              cases hres
              constructor
              · intro hnone
                simp [findPeerNetwork, hemp, hshort, hps, hrun, hnone]
              · intro fp hfp
                by_contra hcon
                have hfalse : res0.paths.any (fun pr => pr.success) = false :=
                  Bool.not_eq_true _ ▸ Bool.of_not_eq_true hcon
                simp [findPeerNetwork, hemp, hshort, hps, hrun, hfalse] at hfp
      | none =>
        cases hrun : runQuery (dht.closestPeers (dht.sha idB) dht.kBucketSize) with
        | error e0 =>
          refine ⟨?_, ?_⟩
          · intro e he
            cases he
            simp [findPeerNetwork, hemp, hshort, hrun]
          · intro res hres
            cases hres
        | ok res0 =>
          refine ⟨?_, ?_⟩
          · intro e he
            cases he
          · intro res hres
            cases hres
            constructor
            · intro hnone
              simp [findPeerNetwork, hemp, hshort, hrun, hnone]
            · intro fp hfp
              by_contra hcon
              have hfalse : res0.paths.any (fun pr => pr.success) = false :=
                Bool.not_eq_true _ ▸ Bool.of_not_eq_true hcon
              simp [findPeerNetwork, hemp, hshort, hrun, hfalse] at hfp

/-- Witness for C3 on a completed query with one unsuccessful path. -/
theorem findPeer_network_outcome_witness :
    (findPeer wDhtSeeded wRunNoSuccess [1]).result = Except.error FindPeerErr.notFound :=
  (((findPeer_network_outcome wDhtSeeded wRunNoSuccess [1] (by decide)).2
    wResNoSuccess rfl).1 (by decide))

/-- Helper: any key delivered by the fetch phase of getPublicKey hashes
back to the peer id (the node path checks this explicitly; the DHT path is
validated per the spec). -/
theorem getPublicKeyFetch_matches (deriveId : Bytes → Bytes)
    (sendRequest : Bytes → Message → Except Unit Message)
    (records : Bytes → Option Bytes) (peerId : Bytes) (pk : Bytes)
    (h : getPublicKeyFetch deriveId sendRequest records peerId = Except.ok pk) :
    deriveId pk = peerId := by
  unfold getPublicKeyFetch at h
  cases hnode : getPublicKeyFromNode deriveId sendRequest peerId with
  | ok v =>
    rw [hnode] at h
    cases h
    unfold getPublicKeyFromNode at hnode
    cases hsend : sendRequest peerId (getValueRequest (keyForPublicKey peerId)) with
    | error u => simp [hsend] at hnode
    | ok msg =>
      simp only [hsend] at hnode
      cases hrec : msg.record with
      | none => simp [hrec] at hnode
      | some rec =>
        simp only [hrec] at hnode
        cases hval : rec.value with
        | none => simp [hval] at hnode
        | some v0 =>
          simp only [hval] at hnode
          cases hmatch : deriveId v0 == peerId with
          | false => simp [hmatch] at hnode
          | true =>
            simp [hmatch] at hnode
            rw [← hnode]
            exact eq_of_beq hmatch
  | error e =>
    rw [hnode] at h
    unfold dhtGetPk at h
    cases hrc : records (keyForPublicKey peerId) with
    | none => simp [hrc] at h
    | some v =>
      simp only [hrc] at h
      cases hmatch : deriveId v == fromPublicKeyKey (keyForPublicKey peerId) with
      | false => simp [hmatch] at h
      | true =>
        simp [hmatch] at h
        rw [fromPublicKeyKey_keyForPublicKey] at hmatch
        rw [← h]
        exact eq_of_beq hmatch

/-- Counterexample for C1: the node answers the `/pk/` request with a key
whose hash does not match, getPublicKeyFromNode raises
ERR_PUBLIC_KEY_DOES_NOT_MATCH_ID, but getPublicKey swallows it, falls back
to the DHT get, and surfaces that fallback's failure instead of the
invalid-public-key error the claim states. -/
theorem getPublicKey_mismatch_fallback_error :
    getPublicKeyFromNode wDerive9 wSendRec5 [1] = Except.error PkErr.pkMismatch ∧
    (getPublicKey wDerive9 wSendRec5 wNoRecords wStorePk [1]).result =
      Except.error PkErr.notFound ∧
    (getPublicKey wDerive9 wSendRec5 wNoRecords wStorePk [1]).result ≠
      Except.error PkErr.pkMismatch := by
  decide

/-- C1 (amended): every public key getPublicKey obtains by fetching (that
is, whenever the peer store holds no cached key) hashes back to the
requested peer id — on the node path by the explicit check, on the DHT
fallback by the spec's record validation; a mismatched key fetched
directly from the node makes getPublicKeyFromNode fail with
ERR_PUBLIC_KEY_DOES_NOT_MATCH_ID, but getPublicKey catches that failure
and falls back to the DHT get, so the surfaced error is the fallback's. -/
theorem getPublicKey_fetched_key_matches (deriveId : Bytes → Bytes)
    (sendRequest : Bytes → Message → Except Unit Message)
    (records : Bytes → Option Bytes) (store : PeerStore) (peerId : Bytes)
    (hnocache : ∀ pd, psGet store peerId = some pd → pd.id.pubKey = none) :
    (∀ pk, (getPublicKey deriveId sendRequest records store peerId).result = Except.ok pk →
      deriveId pk = peerId) ∧
    (∀ msg rec v,
      sendRequest peerId (getValueRequest (keyForPublicKey peerId)) = Except.ok msg →
      msg.record = some rec → rec.value = some v → deriveId v ≠ peerId →
      getPublicKeyFromNode deriveId sendRequest peerId = Except.error PkErr.pkMismatch) := by
  constructor
  · intro pk hok
    unfold getPublicKey at hok
    cases hps : psGet store peerId with
    | none =>
      simp only [hps] at hok
      cases hfetch : getPublicKeyFetch deriveId sendRequest records peerId with
      | error e => simp [hfetch] at hok
      | ok v => simp [hfetch] at hok
    | some pd =>
      simp only [hps, hnocache pd hps] at hok
      cases hfetch : getPublicKeyFetch deriveId sendRequest records peerId with
      | error e => simp [hfetch] at hok
      | ok v =>
        simp [hfetch] at hok
        rw [← hok]
        exact getPublicKeyFetch_matches deriveId sendRequest records peerId v hfetch
  · intro msg rec v hsend hrec hval hne
    unfold getPublicKeyFromNode
    have hb : (deriveId v == peerId) = false := beq_eq_false_iff_ne.mpr hne
    simp [hsend, hrec, hval, hb]

/-- Witness for C1 on a node that answers with the matching key `[5]`. -/
theorem getPublicKey_fetched_key_matches_witness :
    (getPublicKey wDerive1 wSendRec5 wNoRecords wStorePk [1]).result = Except.ok [5] ∧
    wDerive1 [5] = [1] :=
  ⟨by decide,
    (getPublicKey_fetched_key_matches wDerive1 wSendRec5 wNoRecords wStorePk [1]
      (fun pd hpd => by cases hpd; rfl)).1 [5] (by decide)⟩

/-- C9: when the peer is absent from the peer store, getPublicKey
dereferences the undefined store record after a successful fetch (modelled
as the type-error outcome) and can never return a key; it succeeds only
for peers already present in the store. -/
theorem getPublicKey_requires_peer_in_store (deriveId : Bytes → Bytes)
    (sendRequest : Bytes → Message → Except Unit Message)
    (records : Bytes → Option Bytes) (store : PeerStore) (peerId : Bytes)
    (habsent : psGet store peerId = none) :
    (∀ pk, getPublicKeyFetch deriveId sendRequest records peerId = Except.ok pk →
      (getPublicKey deriveId sendRequest records store peerId).result =
        Except.error PkErr.typeError) ∧
    (∀ pk, (getPublicKey deriveId sendRequest records store peerId).result ≠
      Except.ok pk) := by
  constructor
  · intro pk hfetch
    unfold getPublicKey
    simp [habsent, hfetch]
  · intro pk hok
    unfold getPublicKey at hok
    simp only [habsent] at hok
    cases hfetch : getPublicKeyFetch deriveId sendRequest records peerId with
    | error e => simp [hfetch] at hok
    | ok v => simp [hfetch] at hok

/-- Witness for C9 on an empty peer store with a successfully fetched
key. -/
theorem getPublicKey_requires_peer_in_store_witness :
    (getPublicKey wDerive1 wSendRec5 wNoRecords [] [1]).result =
      Except.error PkErr.typeError :=
  (getPublicKey_requires_peer_in_store wDerive1 wSendRec5 wNoRecords [] [1] rfl).1
    [5] (by decide)

/-- Helper: a common prefix of zero bytes does not change the bytewise
comparison. -/
theorem lexBytes_replicate_prepend (k : Nat) (a b : Bytes) :
    lexBytes (List.replicate k 0 ++ a) (List.replicate k 0 ++ b) = lexBytes a b := by
  induction k with
  | zero => simp
  | succ n ih => simpa [List.replicate_succ, lexBytes] using ih

/-- Helper: length of a front-padded byte string. -/
theorem padFront_length (n : Nat) (a : Bytes) :
    (padFront n a).length = max n a.length := by
  simp only [padFront, List.length_append, List.length_replicate]
  omega

/-- Helper: padding both sides to any common bound at least both lengths
computes `compareBytes`. -/
theorem compareBytes_eq_lexBytes_padFront (a b : Bytes) (N : Nat)
    (hN : max a.length b.length ≤ N) :
    compareBytes a b = lexBytes (padFront N a) (padFront N b) := by
  unfold compareBytes
  have ha : padFront N a =
      List.replicate (N - max a.length b.length) 0 ++ padFront (max a.length b.length) a := by
    unfold padFront
    rw [← List.append_assoc, ← List.replicate_add]
    congr 2
    omega
  have hb : padFront N b =
      List.replicate (N - max a.length b.length) 0 ++ padFront (max a.length b.length) b := by
    unfold padFront
    rw [← List.append_assoc, ← List.replicate_add]
    congr 2
    omega
  rw [ha, hb, lexBytes_replicate_prepend]

/-- Helper: on equal-length byte strings a gt comparison flips to lt. -/
theorem lexBytes_gt_symm (a : Bytes) : ∀ b : Bytes, a.length = b.length →
    lexBytes a b = Ordering.gt → lexBytes b a = Ordering.lt := by
  induction a with
  | nil =>
    intro b hlen hgt
    cases b with
    | nil => simp [lexBytes] at hgt
    | cons y ys => simp at hlen
  | cons x xs ih =>
    intro b hlen hgt
    cases b with
    | nil => simp at hlen
    | cons y ys =>
      simp only [lexBytes] at hgt ⊢
      by_cases hxy : x = y
      · subst hxy
        rw [if_pos rfl] at hgt ⊢
        exact ih ys (by simpa using hlen) hgt
      · rw [if_neg hxy] at hgt
        by_cases hlt : x < y
        · rw [if_pos hlt] at hgt
          cases hgt
        · have hyx : y < x := by omega
          rw [if_neg (fun h => hxy h.symm), if_pos hyx]

/-- Helper: transitivity of the equal-length comparison in the not-gt
reading. -/
theorem lexBytes_le_trans (a : Bytes) : ∀ b c : Bytes,
    a.length = b.length → b.length = c.length →
    lexBytes a b ≠ Ordering.gt → lexBytes b c ≠ Ordering.gt →
    lexBytes a c ≠ Ordering.gt := by
  induction a with
  | nil =>
    intro b c hab hbc h1 h2
    cases c with
    | nil => simp [lexBytes]
    | cons z zs => simp [lexBytes]
  | cons x xs ih =>
    intro b c hab hbc h1 h2
    cases b with
    | nil => simp at hab
    | cons y ys =>
      cases c with
      | nil => simp at hbc
      | cons z zs =>
        simp only [lexBytes] at h1 h2 ⊢
        by_cases hxy : x = y
        · subst hxy
          rw [if_pos rfl] at h1
          by_cases hxz : x = z
          · subst hxz
            rw [if_pos rfl] at h2 ⊢
            exact ih ys zs (by simpa using hab) (by simpa using hbc) h1 h2
          · rw [if_neg hxz] at h2 ⊢
            exact h2
        · rw [if_neg hxy] at h1
          have hlt : x < y := by
            by_contra hge
            rw [if_neg hge] at h1
            exact h1 rfl
          by_cases hyz : y = z
          · subst hyz
            rw [if_neg hxy, if_pos hlt]
            intro hc
            cases hc
          · rw [if_neg hyz] at h2
            have hlt2 : y < z := by
              by_contra hge
              rw [if_neg hge] at h2
              exact h2 rfl
            have hxz : x ≠ z := by omega
            rw [if_neg hxz, if_pos (by omega : x < z)]
            intro hc
            cases hc

/-- Helper: a gt comparison of distances flips to lt when the arguments are
swapped. -/
theorem compareBytes_gt_asymm (a b : Bytes) (h : compareBytes a b = Ordering.gt) :
    compareBytes b a = Ordering.lt := by
  unfold compareBytes at h ⊢
  rw [max_comm b.length a.length]
  refine lexBytes_gt_symm _ _ ?_ h
  rw [padFront_length, padFront_length]
  omega

/-- Helper: transitivity of the distance comparator in the not-gt
reading. -/
theorem compareBytes_le_trans (a b c : Bytes)
    (h1 : compareBytes a b ≠ Ordering.gt) (h2 : compareBytes b c ≠ Ordering.gt) :
    compareBytes a c ≠ Ordering.gt := by
  have hab : max a.length b.length ≤ max (max a.length b.length) c.length := by omega
  have hbc : max b.length c.length ≤ max (max a.length b.length) c.length := by omega
  have hac : max a.length c.length ≤ max (max a.length b.length) c.length := by omega
  rw [compareBytes_eq_lexBytes_padFront a b _ hab] at h1
  rw [compareBytes_eq_lexBytes_padFront b c _ hbc] at h2
  rw [compareBytes_eq_lexBytes_padFront a c _ hac]
  refine lexBytes_le_trans _ _ _ ?_ ?_ h1 h2 <;>
    (rw [padFront_length, padFront_length]; omega)

/-- Helper: the not-gt reading of the boolean comparator. -/
theorem ordering_bne_gt (o : Ordering) : (o != Ordering.gt) = true ↔ o ≠ Ordering.gt := by
  cases o <;> decide

/-- Helper: sortClosestPeers is pairwise non-descending in XOR distance of
the digested peer ids to the target. -/
theorem sortClosestPeers_sorted (sha : Bytes → Bytes) (peers : List Bytes) (target : Bytes) :
    List.Pairwise (fun p q =>
      compareBytes (xorDistance (sha p) target) (xorDistance (sha q) target) ≠ Ordering.gt)
      (sortClosestPeers sha peers target) := by
  unfold sortClosestPeers
  rw [List.pairwise_map]
  have hs := @List.sorted_mergeSort PeerDistance
    (fun a b : PeerDistance => xorCompare a b != Ordering.gt)
    (fun a b c h1 h2 => by
      rw [ordering_bne_gt] at h1 h2 ⊢
      exact compareBytes_le_trans _ _ _ h1 h2)
    (fun a b => by
      cases hab : xorCompare a b with
      | lt =>
        rw [Bool.or_eq_true]
        left
        show (xorCompare a b != Ordering.gt) = true
        rw [hab]
        decide
      | eq =>
        rw [Bool.or_eq_true]
        left
        show (xorCompare a b != Ordering.gt) = true
        rw [hab]
        decide
      | gt =>
        have h2 : compareBytes a.distance b.distance = Ordering.gt := hab
        have hlt : xorCompare b a = Ordering.lt :=
          compareBytes_gt_asymm a.distance b.distance h2
        rw [Bool.or_eq_true]
        right
        show (xorCompare b a != Ordering.gt) = true
        rw [hlt]
        decide)
    (peers.map (fun p => PeerDistance.mk p (xorDistance (sha p) target)))
  have hperm := List.mergeSort_perm
    (peers.map (fun p => PeerDistance.mk p (xorDistance (sha p) target)))
    (fun a b => xorCompare a b != Ordering.gt)
  refine hs.imp_of_mem ?_
  intro a b ha hb hR
  have ha2 : a ∈ peers.map (fun p => PeerDistance.mk p (xorDistance (sha p) target)) :=
    hperm.subset ha
  have hb2 : b ∈ peers.map (fun p => PeerDistance.mk p (xorDistance (sha p) target)) :=
    hperm.subset hb
  rcases List.mem_map.mp ha2 with ⟨p, hp, hpa⟩
  rcases List.mem_map.mp hb2 with ⟨q, hq, hqb⟩
  rw [ordering_bne_gt] at hR
  subst hpa
  subst hqb
  simpa [xorCompare] using hR

/-- Helper: sortClosestPeers permutes its input. -/
theorem sortClosestPeers_perm (sha : Bytes → Bytes) (peers : List Bytes) (target : Bytes) :
    (sortClosestPeers sha peers target).Perm peers := by
  unfold sortClosestPeers
  have hperm := List.mergeSort_perm
    (peers.map (fun p => PeerDistance.mk p (xorDistance (sha p) target)))
    (fun a b => xorCompare a b != Ordering.gt)
  have hmap := hperm.map (fun d : PeerDistance => d.peer)
  rw [List.map_map] at hmap
  simpa [Function.comp_def] using hmap

/-- C4: getClosestPeers runs the query seeded from the routing table's
closest peers and, when the run completes with a finalSet, yields that set
sorted non-descending in XOR distance of the digested peer ids to the
digested key, truncated to at most kBucketSize peers, each a member of the
finalSet; the per-peer query function never sets queryComplete. -/
theorem getClosestPeers_sorted_take_k (dht : DhtCtx)
    (runQuery : List Bytes → Option ClosestQueryResult) (key : Bytes)
    (res : ClosestQueryResult) (fs : List Bytes)
    (hrun : runQuery (dht.closestPeers (dht.sha key) dht.kBucketSize) = some res)
    (hfs : res.finalSet = some fs) (hne : fs ≠ []) :
    getClosestPeers dht runQuery key =
      (sortClosestPeers dht.sha fs (dht.sha key)).take dht.kBucketSize ∧
    (getClosestPeers dht runQuery key).length ≤ dht.kBucketSize ∧
    (∀ p ∈ getClosestPeers dht runQuery key, p ∈ fs) ∧
    List.Pairwise (fun p q =>
      compareBytes (xorDistance (dht.sha p) (dht.sha key))
        (xorDistance (dht.sha q) (dht.sha key)) ≠ Ordering.gt)
      (getClosestPeers dht runQuery key) ∧
    (∀ shallow closer, (getClosestPeersStep shallow closer).queryComplete = none) := by
  have heq : getClosestPeers dht runQuery key =
      (sortClosestPeers dht.sha fs (dht.sha key)).take dht.kBucketSize := by
    unfold getClosestPeers
    simp only [hrun, hfs]
  refine ⟨heq, ?_, ?_, ?_, fun shallow closer => rfl⟩
  · rw [heq]
    exact List.length_take_le _ _
  · intro p hp
    rw [heq] at hp
    have hsort : p ∈ sortClosestPeers dht.sha fs (dht.sha key) :=
      (List.take_sublist _ _).subset hp
    exact (sortClosestPeers_perm dht.sha fs (dht.sha key)).subset hsort
  · rw [heq]
    exact (sortClosestPeers_sorted dht.sha fs (dht.sha key)).sublist
      (List.take_sublist _ _)

/-- Witness for C4 on a three-element final set with bucket size 2. -/
theorem getClosestPeers_sorted_take_k_witness :
    getClosestPeers wDhtK2 wRunClosest [0] =
      (sortClosestPeers wDhtK2.sha [[3], [1], [2]] (wDhtK2.sha [0])).take wDhtK2.kBucketSize ∧
    (getClosestPeers wDhtK2 wRunClosest [0]).length ≤ wDhtK2.kBucketSize ∧
    (∀ p ∈ getClosestPeers wDhtK2 wRunClosest [0], p ∈ [[3], [1], [2]]) ∧
    List.Pairwise (fun p q =>
      compareBytes (xorDistance (wDhtK2.sha p) (wDhtK2.sha [0]))
        (xorDistance (wDhtK2.sha q) (wDhtK2.sha [0])) ≠ Ordering.gt)
      (getClosestPeers wDhtK2 wRunClosest [0]) ∧
    (∀ shallow closer, (getClosestPeersStep shallow closer).queryComplete = none) :=
  getClosestPeers_sorted_take_k wDhtK2 wRunClosest [0] wResClosest [[3], [1], [2]]
    rfl rfl (by decide)

/-- Helper: the default lookup into the alphabet always yields an alphabet
character. -/
theorem rfc4648Chars_getD_mem (n : Nat) : rfc4648Chars.getD n 'a' ∈ rfc4648Chars := by
  by_cases h : n < rfc4648Chars.length
  · rw [List.getD_eq_getElem rfc4648Chars 'a' h]
    exact List.getElem_mem h
  · rw [List.getD_eq_default rfc4648Chars 'a' (by omega)]
    decide

/-- Helper: bit stream of a cons. -/
theorem bytesToBits_cons (b : Nat) (bs : Bytes) :
    bytesToBits (b :: bs) = byteToBits b ++ bytesToBits bs := rfl

/-- Helper: length of the bit stream of a byte string. -/
theorem bytesToBits_length (bs : Bytes) : (bytesToBits bs).length = 8 * bs.length := by
  induction bs with
  | nil => rfl
  | cons b t ih =>
    rw [bytesToBits_cons, List.length_append, ih]
    simp [byteToBits]
    ring

/-- Helper: number of 5-bit groups, bounded-length induction form. -/
theorem groupBits5_length_aux : ∀ n (l : List Bool), l.length ≤ n →
    (groupBits5 l).length = (l.length + 4) / 5 := by
  intro n
  induction n with
  | zero =>
    intro l h
    have hl : l = [] := List.eq_nil_of_length_eq_zero (by omega)
    subst hl
    simp [groupBits5]
  | succ n ih =>
    intro l h
    by_cases hl : l = []
    · subst hl
      simp [groupBits5]
    · unfold groupBits5
      rw [if_neg hl]
      have h1 : 0 < l.length := List.length_pos.mpr hl
      have h2 := ih (l.drop 5) (by rw [List.length_drop]; omega)
      rw [List.length_cons, h2, List.length_drop]
      omega

/-- Helper: number of 5-bit groups. -/
theorem groupBits5_length (l : List Bool) :
    (groupBits5 l).length = (l.length + 4) / 5 :=
  groupBits5_length_aux l.length l (Nat.le_refl _)

/-- Helper: every 5-bit group has five bits, bounded-length induction
form. -/
theorem groupBits5_group_length_aux : ∀ n (l : List Bool), l.length ≤ n →
    ∀ g ∈ groupBits5 l, g.length = 5 := by
  intro n
  induction n with
  | zero =>
    intro l h g hg
    have hl : l = [] := List.eq_nil_of_length_eq_zero (by omega)
    subst hl
    simp [groupBits5] at hg
  | succ n ih =>
    intro l h g hg
    by_cases hl : l = []
    · subst hl
      simp [groupBits5] at hg
    · unfold groupBits5 at hg
      rw [if_neg hl] at hg
      have h1 : 0 < l.length := List.length_pos.mpr hl
      rcases List.mem_cons.mp hg with hh | ht
      · subst hh
        rw [List.length_append, List.length_take, List.length_replicate]
        have := min_le_right 5 l.length
        rcases Nat.le_total 5 l.length with h5 | h5
        · rw [min_eq_left h5]
          omega
        · rw [min_eq_right h5]
          omega
      · exact ih (l.drop 5) (by rw [List.length_drop]; omega) g ht

/-- Helper: every 5-bit group has five bits. -/
theorem groupBits5_group_length (l : List Bool) :
    ∀ g ∈ groupBits5 l, g.length = 5 :=
  groupBits5_group_length_aux l.length l (Nat.le_refl _)

/-- Helper: flattening the 5-bit groups recovers the stream plus its final
zero padding, bounded-length induction form. -/
theorem groupBits5_flatten_aux : ∀ n (l : List Bool), l.length ≤ n →
    (groupBits5 l).flatten =
      l ++ List.replicate (5 * ((l.length + 4) / 5) - l.length) false := by
  intro n
  induction n with
  | zero =>
    intro l h
    have hl : l = [] := List.eq_nil_of_length_eq_zero (by omega)
    subst hl
    simp [groupBits5]
  | succ n ih =>
    intro l h
    by_cases hl : l = []
    · subst hl
      simp [groupBits5]
    · unfold groupBits5
      rw [if_neg hl]
      have h1 : 0 < l.length := List.length_pos.mpr hl
      rw [List.flatten_cons, ih (l.drop 5) (by rw [List.length_drop]; omega)]
      rcases Nat.le_total 5 l.length with h5 | h5
      · have hrep : List.replicate (5 - l.length) (false : Bool) = [] := by
          have : 5 - l.length = 0 := by omega
          rw [this, List.replicate_zero]
        rw [hrep, List.append_nil, ← List.append_assoc, List.take_append_drop,
          List.length_drop]
        congr 2
        omega
      · have hdrop : l.drop 5 = [] := List.drop_eq_nil_of_le h5
        have htake : l.take 5 = l := List.take_of_length_le h5
        rw [hdrop, htake]
        simp [groupBits5]
        congr 1
        omega

/-- Helper: flattening the 5-bit groups recovers the stream plus its final
zero padding. -/
theorem groupBits5_flatten (l : List Bool) :
    (groupBits5 l).flatten =
      l ++ List.replicate (5 * ((l.length + 4) / 5) - l.length) false :=
  groupBits5_flatten_aux l.length l (Nat.le_refl _)

/-- Helper: value of a bit string with an explicit accumulator. -/
theorem bitsToNat_foldl (l : List Bool) : ∀ acc : Nat,
    l.foldl (fun acc b => 2 * acc + (if b then 1 else 0)) acc =
      acc * 2 ^ l.length + bitsToNat l := by
  induction l with
  | nil => intro acc; simp [bitsToNat]
  | cons b t ih =>
    intro acc
    simp only [List.foldl_cons]
    rw [ih]
    have hbt : bitsToNat (b :: t) =
        (2 * 0 + if b then 1 else 0) * 2 ^ t.length + bitsToNat t := by
      show List.foldl _ (2 * 0 + if b then 1 else 0) t = _
      exact ih _
    rw [hbt, List.length_cons, pow_succ]
    ring

/-- Helper: a bit string of length `k` has value below `2 ^ k`. -/
theorem bitsToNat_lt (l : List Bool) : bitsToNat l < 2 ^ l.length := by
  induction l with
  | nil => decide
  | cons b t ih =>
    show List.foldl _ _ (b :: t) < _
    simp only [List.foldl_cons]
    rw [bitsToNat_foldl, List.length_cons, pow_succ]
    cases b <;> simp <;> omega

set_option maxRecDepth 4096 in
/-- Helper: decoding an alphabet character at a 5-bit value recovers the
value. -/
theorem rfc4648_indexOf_getD : ∀ n, n < 32 →
    rfc4648Chars.indexOf (rfc4648Chars.getD n 'a') = n := by
  decide

/-- Helper: the 5-bit rendering of the value of a 5-bit group is the
group. -/
theorem natToBits5_bitsToNat : ∀ g : List Bool, g.length = 5 →
    natToBits5 (bitsToNat g) = g := by
  intro g hg
  match g, hg with
  | [a, b, c, d, e], _ =>
    cases a <;> cases b <;> cases c <;> cases d <;> cases e <;> decide

set_option maxRecDepth 8192 in
/-- Helper: the byte rendering round-trips for genuine bytes. -/
theorem bitsToNat_byteToBits : ∀ b, b < 256 → bitsToNat (byteToBits b) = b := by
  decide

/-- Helper: regrouping a byte stream with fewer than 8 trailing bits
recovers the bytes and discards the tail. -/
theorem groupBits8_bytes : ∀ bs : Bytes, (∀ b ∈ bs, b < 256) →
    ∀ extra : List Bool, extra.length < 8 →
    groupBits8 (bytesToBits bs ++ extra) = bs := by
  intro bs
  induction bs with
  | nil =>
    intro _ extra hx
    show groupBits8 ([] ++ extra) = []
    rw [List.nil_append]
    unfold groupBits8
    rw [if_pos hx]
  | cons b t ih =>
    intro hb extra hx
    rw [bytesToBits_cons, List.append_assoc]
    unfold groupBits8
    have hblen : (byteToBits b).length = 8 := rfl
    have hlen : 8 ≤ (byteToBits b ++ (bytesToBits t ++ extra)).length := by
      rw [List.length_append, hblen]
      omega
    rw [if_neg (by omega)]
    rw [List.take_left' hblen, List.drop_left' hblen]
    rw [bitsToNat_byteToBits b (hb b (List.mem_cons_self b t))]
    rw [ih (fun x hxt => hb x (List.mem_cons_of_mem b hxt)) extra hx]

/-- C7: `bufferToKey(buf)` is the slash character followed by the base32
encoding of the buffer; the encoding uses only the lowercase RFC 4648
alphabet, contains no padding character, has the unpadded base32 length,
and decodes back to the buffer. -/
theorem bufferToKey_base32_format (buf : Bytes) (hb : ∀ b ∈ buf, b < 256) :
    bufferToKey buf = '/' :: encodeBase32 buf ∧
    (∀ c ∈ encodeBase32 buf, c ∈ rfc4648Chars) ∧
    '=' ∉ encodeBase32 buf ∧
    (encodeBase32 buf).length = (8 * buf.length + 4) / 5 ∧
    decodeBase32 (encodeBase32 buf) = buf := by
  have hmemchars : ∀ c ∈ encodeBase32 buf, c ∈ rfc4648Chars := by
    intro c hc
    unfold encodeBase32 at hc
    rcases List.mem_map.mp hc with ⟨g, hg, hgc⟩
    rw [← hgc]
    exact rfc4648Chars_getD_mem _
  refine ⟨rfl, hmemchars, ?_, ?_, ?_⟩
  · intro hmem
    have := hmemchars '=' hmem
    simp [rfc4648Chars] at this
  · unfold encodeBase32
    rw [List.length_map, groupBits5_length, bytesToBits_length]
  · unfold decodeBase32 encodeBase32
    rw [List.flatMap_def, List.map_map]
    have hcongr : (groupBits5 (bytesToBits buf)).map
        ((fun c => natToBits5 (rfc4648Chars.indexOf c)) ∘
          (fun g => rfc4648Chars.getD (bitsToNat g) 'a')) =
        (groupBits5 (bytesToBits buf)).map id := by
      refine List.map_congr_left ?_
      intro g hg
      have hlen : g.length = 5 := groupBits5_group_length _ g hg
      have hval : bitsToNat g < 32 := by
        have := bitsToNat_lt g
        rw [hlen] at this
        exact this
      show natToBits5 (rfc4648Chars.indexOf (rfc4648Chars.getD (bitsToNat g) 'a')) = g
      rw [rfc4648_indexOf_getD (bitsToNat g) hval]
      exact natToBits5_bitsToNat g hlen
    rw [hcongr, List.map_id, groupBits5_flatten]
    have hpadlen : (List.replicate
        (5 * (((bytesToBits buf).length + 4) / 5) - (bytesToBits buf).length)
        false).length < 8 := by
      rw [List.length_replicate, bytesToBits_length]
      omega
    exact groupBits8_bytes buf hb _ hpadlen

/-- Witness for C7 on the two-byte buffer `[102, 111]` (ASCII "fo"). -/
theorem bufferToKey_base32_format_witness :
    bufferToKey [102, 111] = '/' :: encodeBase32 [102, 111] ∧
    (∀ c ∈ encodeBase32 [102, 111], c ∈ rfc4648Chars) ∧
    '=' ∉ encodeBase32 [102, 111] ∧
    (encodeBase32 [102, 111]).length = (8 * ([102, 111] : Bytes).length + 4) / 5 ∧
    decodeBase32 (encodeBase32 [102, 111]) = [102, 111] :=
  bufferToKey_base32_format [102, 111] (by decide)

end KadDHT
